import Mathlib

/-!
Shallow embedding of the RAG-GENAI-APP document registry
(src/backend/src/models/pdfs.model.js): the Mongoose `pdfs` schema, its
validation bounds, the pre-save middleware, and the instance/static methods
`getUserPermission`, `hasAccess`, `shareWith`, `removeSharing`, `findByUser`.

Modelling choices:
- Mongoose ObjectIds are modelled as `String` (the JS code always compares
  them via `.toString()`).
- Dates are modelled as `Nat` timestamps; the current time is an explicit
  `now` parameter to operations that call `new Date()`.
- A sharing grant is modelled with BOTH field names appearing in the source:
  the schema declares the subdocument field `user`, while the instance
  methods read and write `user_id` (and `shared_at`). Each is an
  `Option String` so that an absent field is representable, exactly as in
  the JS objects the methods build.
- JS truthiness of a string field (`!this.original_name`) is emptiness of
  the `String`; truthiness of `share.user_id` is `Option.isSome`.
- Methods that `throw` are embedded as `Except String` with the exact
  message thrown by the source.
- Schema validation is embedded as `validationErrors`, the list of
  validator messages produced by the declared `required` / `min` /
  `maxlength` / `enum` constraints.
-/

namespace RagApp

/-- One entry of the `shared_with` array. The schema (pdfs.model.js lines
100-110) declares fields `user` and `permission`; the instance methods
(`getUserPermission`, `shareWith`, `removeSharing`) read and write `user_id`
and `shared_at` instead. Both spellings are carried so the embedding can
express both the schema and the methods faithfully. -/
structure Grant where
  user : Option String
  user_id : Option String
  permission : String
  shared_at : Option Nat
deriving DecidableEq, Repr

/-- A document of the `pdfs` collection (pdfs.model.js lines 3-115). -/
structure Pdf where
  name : String
  original_name : String
  uuid : String
  size : Int
  mime_type : String
  page_count : Option Int
  is_indexed : Bool
  indexing_status : String
  indexed_at : Option Nat
  total_chunks : Int
  successful_chunks : Int
  uploaded_by : String
  error_message : Option String
  description : Option String
  tags : List String
  milvus_collection : String
  is_public : Bool
  shared_with : List Grant
deriving DecidableEq, Repr

/-- The predicate `share.user_id && share.user_id.toString() === userIdStr`
used by `getUserPermission`, `shareWith` and `removeSharing`. -/
def grantMatches (userId : String) (g : Grant) : Bool :=
  match g.user_id with
  | some v => v == userId
  | none => false

/-- `PdfSchema.methods.getUserPermission` (pdfs.model.js lines 157-182). -/
def getUserPermission (doc : Pdf) (userId : String) : String :=
  if userId = doc.uploaded_by then
    "owner"
  else if doc.is_public then
    "read"
  else if doc.shared_with.length > 0 then
    match doc.shared_with.find? (grantMatches userId) with
    | some userShare =>
        if userShare.permission = "" then "read" else userShare.permission
    | none => "none"
  else
    "none"

/-- `PdfSchema.methods.hasAccess` (pdfs.model.js lines 185-188; this second
assignment overrides the earlier one at lines 128-132). -/
def hasAccess (doc : Pdf) (userId : String) : Bool :=
  getUserPermission doc userId != "none"

/-- The match predicate of the MongoDB query issued by
`PdfSchema.statics.findByUser` (pdfs.model.js lines 135-143):
`$or` of `uploaded_by: userId`, `is_public: true`, and
`'shared_with.user': userId` (note: the schema field `user`, not the
`user_id` written by `shareWith`). -/
def findByUserMatch (doc : Pdf) (userId : String) : Bool :=
  doc.uploaded_by == userId || doc.is_public || doc.shared_with.any (fun g => g.user == some userId)

/-- `PdfSchema.statics.findByUser` over an explicit collection of documents. -/
def findByUser (docs : List Pdf) (userId : String) : List Pdf :=
  docs.filter (fun d => findByUserMatch d userId)

/-- The pre-save middleware (pdfs.model.js lines 146-155). `isModifiedIsIndexed`
is the value of `this.isModified('is_indexed')`; `now` is `new Date()`. -/
def preSave (doc : Pdf) (isModifiedIsIndexed : Bool) (now : Nat) : Pdf :=
  let doc1 :=
    if isModifiedIsIndexed ∧ doc.is_indexed ∧ doc.indexed_at = none then
      { doc with indexed_at := some now, indexing_status := "completed" }
    else doc
  if doc1.original_name = "" ∧ doc1.name ≠ "" then
    { doc1 with original_name := doc1.name }
  else doc1

/-- The `findIndex` + in-place update step of `shareWith` (pdfs.model.js
lines 204-212): update the permission and `shared_at` of the FIRST grant
whose `user_id` matches; `none` when no grant matches. -/
def updateFirstGrant (l : List Grant) (userId : String) (permission : String) (now : Nat) : Option (List Grant) :=
  match l with
  | [] => none
  | g :: rest =>
    if grantMatches userId g then
      some ({ g with permission := permission, shared_at := some now } :: rest)
    else
      match updateFirstGrant rest userId permission now with
      | some rest2 => some (g :: rest2)
      | none => none

/-- `PdfSchema.methods.shareWith` (pdfs.model.js lines 193-224). On the
no-existing-grant path the source pushes `{ user_id, permission, shared_at }`
— it does NOT set the schema field `user`. -/
def shareWith (doc : Pdf) (userId : String) (permission : String) (now : Nat) : Except String Pdf :=
  if userId = doc.uploaded_by then
    Except.error "Cannot share PDF with owner"
  else
    match updateFirstGrant doc.shared_with userId permission now with
    | some l => Except.ok { doc with shared_with := l }
    | none =>
        Except.ok { doc with shared_with :=
          doc.shared_with ++ [{ user := none, user_id := some userId,
                                permission := permission, shared_at := some now }] }

/-- The `findIndex` + `splice(i, 1)` step of `removeSharing`: remove the
FIRST grant whose `user_id` matches; `none` when no grant matches. -/
def removeFirstGrant (l : List Grant) (userId : String) : Option (List Grant) :=
  match l with
  | [] => none
  | g :: rest =>
    if grantMatches userId g then
      some rest
    else
      match removeFirstGrant rest userId with
      | some rest2 => some (g :: rest2)
      | none => none

/-- `PdfSchema.methods.removeSharing` (pdfs.model.js lines 228-248). -/
def removeSharing (doc : Pdf) (userId : String) : Except String Pdf :=
  if doc.shared_with.length = 0 then
    Except.error "PDF is not shared with any users"
  else
    match removeFirstGrant doc.shared_with userId with
    | none => Except.error "PDF is not shared with this user"
    | some l => Except.ok { doc with shared_with := l }

/-- The legal values of `indexing_status` (pdfs.model.js lines 44-48). -/
def indexingStatusEnum : List String := ["pending", "processing", "completed", "failed"]

/-- One validator outcome: the declared message when the violation flag is
set, nothing otherwise. -/
def guardErr (b : Bool) (msg : String) : List String :=
  if b then [msg] else []

/-- A `min: 0` validator on an optional numeric field: violated exactly
when the field is present and negative (Mongoose skips validators on
absent optional paths). -/
def optNegative (x : Option Int) : Bool :=
  match x with
  | some p => decide (p < 0)
  | none => false

/-- A `maxlength: n` validator on an optional string field: violated
exactly when the field is present and longer than `n`. -/
def optTooLong (x : Option String) (n : Nat) : Bool :=
  match x with
  | some s => decide (s.length > n)
  | none => false

/-- Mongoose validation of a document against the declared schema
constraints (pdfs.model.js lines 3-115): `required`, `maxlength`, `min`,
and `enum` validators, each contributing its declared message when
violated. -/
def validationErrors (doc : Pdf) : List String :=
  guardErr (doc.name == "") "PDF name is required"
  ++ guardErr (decide (doc.name.length > 255)) "PDF name cannot exceed 255 characters"
  ++ guardErr (doc.original_name == "") "Path original_name is required"
  ++ guardErr (doc.uuid == "") "PDF UUID is required"
  ++ guardErr (decide (doc.size < 0)) "File size cannot be negative"
  ++ guardErr (optNegative doc.page_count) "Page count cannot be negative"
  ++ guardErr (!(indexingStatusEnum.contains doc.indexing_status))
      "Invalid indexing_status enum value"
  ++ guardErr (decide (doc.total_chunks < 0)) "Total chunks cannot be negative"
  ++ guardErr (decide (doc.successful_chunks < 0)) "Successful chunks cannot be negative"
  ++ guardErr (doc.uploaded_by == "") "User ID is required"
  ++ guardErr (optTooLong doc.description 500) "Description cannot exceed 500 characters"
  ++ doc.tags.filterMap
      (fun t => if t.length > 50 then some "Tag cannot exceed 50 characters" else none)
  ++ doc.shared_with.filterMap
      (fun g => if g.permission == "read" || g.permission == "write" then none
                else some "Invalid shared_with permission enum value")

/-- The grants of `l` naming user `userId` (via the `user_id` field the
methods use). -/
def grantsFor (l : List Grant) (userId : String) : List Grant :=
  l.filter (grantMatches userId)

/-- At most one active grant per user. -/
def atMostOneGrantPer (l : List Grant) : Prop :=
  ∀ u : String, (grantsFor l u).length ≤ 1

/-- A concrete document used for witnesses: owned by user `"A"`, not
public, no grants, empty-string defaults. -/
def sampleDoc : Pdf where
  name := "report.pdf"
  original_name := "report.pdf"
  uuid := "uuid-1"
  size := 1024
  mime_type := "application/pdf"
  page_count := some 3
  is_indexed := false
  indexing_status := "pending"
  indexed_at := none
  total_chunks := 0
  successful_chunks := 0
  uploaded_by := "A"
  error_message := none
  description := none
  tags := []
  milvus_collection := "RAG_TEXT_EMBEDDING"
  is_public := false
  shared_with := []

/-! ### Helper lemmas about the grant-list operations -/

/-- Updating the permission and timestamp of a grant does not change which
user it names. -/
lemma grantMatches_set_perm (u : String) (g : Grant) (p : String) (t : Nat) :
    grantMatches u { g with permission := p, shared_at := some t } = grantMatches u g := rfl

lemma updateFirstGrant_eq_none (l : List Grant) (u p : String) (t : Nat)
    (h : ∀ g ∈ l, grantMatches u g = false) : updateFirstGrant l u p t = none := by
  induction l with
  | nil => rfl
  | cons g rest ih =>
    have hg : grantMatches u g = false := h g (by simp)
    rw [updateFirstGrant, if_neg (by simp [hg]),
      ih (fun g' hg' => h g' (List.mem_cons_of_mem _ hg'))]

lemma updateFirstGrant_none_forall (l : List Grant) (u p : String) (t : Nat)
    (h : updateFirstGrant l u p t = none) : ∀ g ∈ l, grantMatches u g = false := by
  induction l with
  | nil => simp
  | cons g rest ih =>
    rw [updateFirstGrant] at h
    by_cases hm : grantMatches u g
    · rw [if_pos hm] at h; exact Option.noConfusion h
    · rw [if_neg hm] at h
      cases hrec : updateFirstGrant rest u p t with
      | some l2 => rw [hrec] at h; exact Option.noConfusion h
      | none =>
        intro g' hg'
        rcases List.mem_cons.mp hg' with rfl | hmem
        · exact Bool.eq_false_iff.mpr hm
        · exact ih hrec g' hmem

lemma updateFirstGrant_some (l : List Grant) (u p : String) (t : Nat) (l2 : List Grant)
    (h : updateFirstGrant l u p t = some l2) :
    ∃ l1 g lr, l = l1 ++ g :: lr ∧ (∀ g' ∈ l1, grantMatches u g' = false) ∧
      grantMatches u g = true ∧
      l2 = l1 ++ ({ g with permission := p, shared_at := some t } :: lr) := by
  induction l generalizing l2 with
  | nil => exact Option.noConfusion h
  | cons g rest ih =>
    rw [updateFirstGrant] at h
    by_cases hm : grantMatches u g
    · rw [if_pos hm] at h
      injection h with h
      exact ⟨[], g, rest, by simp, by simp, hm, by simp [← h]⟩
    · rw [if_neg hm] at h
      cases hrec : updateFirstGrant rest u p t with
      | none => rw [hrec] at h; exact Option.noConfusion h
      | some lr2 =>
        rw [hrec] at h
        injection h with h
        obtain ⟨l1, g0, lr, heq, hl1, hg0, hl2⟩ := ih lr2 hrec
        refine ⟨g :: l1, g0, lr, by rw [heq, List.cons_append], ?_, hg0, ?_⟩
        · intro g' hg'
          rcases List.mem_cons.mp hg' with rfl | hmem
          · exact Bool.eq_false_iff.mpr hm
          · exact hl1 g' hmem
        · rw [← h, hl2, List.cons_append]

lemma removeFirstGrant_eq_none (l : List Grant) (u : String)
    (h : ∀ g ∈ l, grantMatches u g = false) : removeFirstGrant l u = none := by
  induction l with
  | nil => rfl
  | cons g rest ih =>
    have hg : grantMatches u g = false := h g (by simp)
    rw [removeFirstGrant, if_neg (by simp [hg]),
      ih (fun g' hg' => h g' (List.mem_cons_of_mem _ hg'))]

lemma removeFirstGrant_none_forall (l : List Grant) (u : String)
    (h : removeFirstGrant l u = none) : ∀ g ∈ l, grantMatches u g = false := by
  induction l with
  | nil => simp
  | cons g rest ih =>
    rw [removeFirstGrant] at h
    by_cases hm : grantMatches u g
    · rw [if_pos hm] at h; exact Option.noConfusion h
    · rw [if_neg hm] at h
      cases hrec : removeFirstGrant rest u with
      | some l2 => rw [hrec] at h; exact Option.noConfusion h
      | none =>
        intro g' hg'
        rcases List.mem_cons.mp hg' with rfl | hmem
        · exact Bool.eq_false_iff.mpr hm
        · exact ih hrec g' hmem

lemma removeFirstGrant_some (l : List Grant) (u : String) (l2 : List Grant)
    (h : removeFirstGrant l u = some l2) :
    ∃ l1 g lr, l = l1 ++ g :: lr ∧ (∀ g' ∈ l1, grantMatches u g' = false) ∧
      grantMatches u g = true ∧ l2 = l1 ++ lr := by
  induction l generalizing l2 with
  | nil => exact Option.noConfusion h
  | cons g rest ih =>
    rw [removeFirstGrant] at h
    by_cases hm : grantMatches u g
    · rw [if_pos hm] at h
      injection h with h
      exact ⟨[], g, rest, by simp, by simp, hm, by simp [← h]⟩
    · rw [if_neg hm] at h
      cases hrec : removeFirstGrant rest u with
      | none => rw [hrec] at h; exact Option.noConfusion h
      | some lr2 =>
        rw [hrec] at h
        injection h with h
        obtain ⟨l1, g0, lr, heq, hl1, hg0, hl2⟩ := ih lr2 hrec
        refine ⟨g :: l1, g0, lr, by rw [heq, List.cons_append], ?_, hg0, ?_⟩
        · intro g' hg'
          rcases List.mem_cons.mp hg' with rfl | hmem
          · exact Bool.eq_false_iff.mpr hm
          · exact hl1 g' hmem
        · rw [← h, hl2, List.cons_append]

lemma find?_append_left_none {α : Type} (p : α → Bool) (l1 l2 : List α)
    (h : ∀ a ∈ l1, p a = false) : (l1 ++ l2).find? p = l2.find? p := by
  induction l1 with
  | nil => rfl
  | cons a l ih =>
    rw [List.cons_append, List.find?_cons_of_neg _ (by simp [h a (by simp)]),
      ih (fun a' ha' => h a' (List.mem_cons_of_mem _ ha'))]

lemma shareWith_ok_ne_owner {doc doc' : Pdf} {u p : String} {t : Nat}
    (h : shareWith doc u p t = Except.ok doc') : u ≠ doc.uploaded_by := by
  intro hu
  rw [shareWith, if_pos hu] at h
  exact Except.noConfusion h

lemma shareWith_ok_of_ne_owner (doc : Pdf) (u p : String) (t : Nat)
    (h : u ≠ doc.uploaded_by) : ∃ doc', shareWith doc u p t = Except.ok doc' := by
  rw [shareWith, if_neg h]
  cases updateFirstGrant doc.shared_with u p t with
  | some l => exact ⟨_, rfl⟩
  | none => exact ⟨_, rfl⟩

/-- On success, `shareWith` only rewrites `shared_with`: it either updates
the first matching grant in place, or appends a fresh `user_id` grant. -/
lemma shareWith_ok_shared {doc doc' : Pdf} {u p : String} {t : Nat}
    (h : shareWith doc u p t = Except.ok doc') :
    (∃ l2, updateFirstGrant doc.shared_with u p t = some l2 ∧
        doc' = { doc with shared_with := l2 }) ∨
    (updateFirstGrant doc.shared_with u p t = none ∧
      doc' = { doc with shared_with := doc.shared_with ++
        [{ user := none, user_id := some u, permission := p, shared_at := some t }] }) := by
  rw [shareWith, if_neg (shareWith_ok_ne_owner h)] at h
  cases hupd : updateFirstGrant doc.shared_with u p t with
  | some l2 =>
    rw [hupd] at h
    injection h with h
    exact Or.inl ⟨l2, rfl, h.symm⟩
  | none =>
    rw [hupd] at h
    injection h with h
    exact Or.inr ⟨rfl, h.symm⟩

lemma removeSharing_ok_shared {doc doc' : Pdf} {u : String}
    (h : removeSharing doc u = Except.ok doc') :
    ∃ l2, removeFirstGrant doc.shared_with u = some l2 ∧
      doc' = { doc with shared_with := l2 } := by
  rw [removeSharing] at h
  by_cases hlen : doc.shared_with.length = 0
  · rw [if_pos hlen] at h; exact Except.noConfusion h
  · rw [if_neg hlen] at h
    cases hrem : removeFirstGrant doc.shared_with u with
    | none => rw [hrem] at h; exact Except.noConfusion h
    | some l2 =>
      rw [hrem] at h
      injection h with h
      exact ⟨l2, rfl, h.symm⟩

/-- Unfolding of `getUserPermission` in the grant-lookup case. -/
lemma getUserPermission_of_find? {doc : Pdf} {u : String} {g : Grant}
    (hown : u ≠ doc.uploaded_by) (hpub : doc.is_public = false)
    (hfind : doc.shared_with.find? (grantMatches u) = some g) :
    getUserPermission doc u = if g.permission = "" then "read" else g.permission := by
  have hmem : g ∈ doc.shared_with := List.mem_of_find?_eq_some hfind
  have hlen : doc.shared_with.length > 0 :=
    List.length_pos.mpr (List.ne_nil_of_mem hmem)
  rw [getUserPermission, if_neg hown, if_neg (by simp [hpub]), if_pos hlen, hfind]

/-! ### Helper lemmas about `grantsFor` and the uniqueness invariant -/

lemma grantsFor_append (l1 l2 : List Grant) (u : String) :
    grantsFor (l1 ++ l2) u = grantsFor l1 u ++ grantsFor l2 u :=
  List.filter_append ..

lemma grantsFor_eq_nil (l : List Grant) (u : String)
    (h : ∀ g ∈ l, grantMatches u g = false) : grantsFor l u = [] := by
  rw [grantsFor, List.filter_eq_nil_iff]
  intro g hg
  simp [h g hg]

/-- A grant freshly pushed by `shareWith` names its user. -/
lemma grantMatches_new (u p : String) (t : Nat) :
    grantMatches u { user := none, user_id := some u, permission := p, shared_at := some t } = true := by
  simp [grantMatches]

/-- In-place permission update preserves the number of grants naming each
user. -/
lemma grantsFor_update_length (l1 lr : List Grant) (g : Grant) (p : String) (t : Nat) (v : String) :
    (grantsFor (l1 ++ ({ g with permission := p, shared_at := some t } :: lr)) v).length =
      (grantsFor (l1 ++ (g :: lr)) v).length := by
  rw [grantsFor_append, grantsFor_append, List.length_append, List.length_append]
  congr 1
  rw [grantsFor, grantsFor, List.filter_cons, List.filter_cons, grantMatches_set_perm]
  by_cases hv : grantMatches v g
  · rw [if_pos (by simp [hv]), if_pos (by simp [hv])]; simp
  · rw [if_neg (by simp [Bool.eq_false_iff.mpr hv]), if_neg (by simp [Bool.eq_false_iff.mpr hv])]

/-- Master lemma for `shareWith`: assuming at most one grant per user, a
successful share preserves that invariant and leaves the target user with
exactly one grant, carrying the requested permission. -/
lemma shareWith_ok_grants {doc doc' : Pdf} {u p : String} {t : Nat}
    (hone : atMostOneGrantPer doc.shared_with)
    (h : shareWith doc u p t = Except.ok doc') :
    atMostOneGrantPer doc'.shared_with ∧
      ∃ g, grantsFor doc'.shared_with u = [g] ∧ g.permission = p := by
  rcases shareWith_ok_shared h with ⟨l2, hupd, rfl⟩ | ⟨hupd, rfl⟩
  · obtain ⟨l1, g, lr, heq, hl1, hg, hl2⟩ := updateFirstGrant_some _ _ _ _ _ hupd
    constructor
    · intro v
      show (grantsFor l2 v).length ≤ 1
      rw [hl2, grantsFor_update_length, ← heq]
      exact hone v
    · refine ⟨{ g with permission := p, shared_at := some t }, ?_, rfl⟩
      show grantsFor l2 u = _
      have hnil1 : grantsFor l1 u = [] := grantsFor_eq_nil _ _ hl1
      have hnilr : grantsFor lr u = [] := by
        have h1 := hone u
        rw [heq, grantsFor_append, hnil1] at h1
        simp only [List.nil_append, grantsFor, List.filter_cons] at h1 ⊢
        rw [if_pos (by simp [hg])] at h1
        simp only [List.length_cons] at h1
        have hlen0 : (List.filter (grantMatches u) lr).length = 0 := by omega
        exact List.length_eq_zero.mp hlen0
      rw [hl2, grantsFor_append, hnil1]
      simp only [List.nil_append, grantsFor, List.filter_cons]
      rw [if_pos (by simp [grantMatches_set_perm, hg])]
      simp only [List.cons.injEq, true_and]
      simpa [grantsFor] using hnilr
  · constructor
    · intro v
      show (grantsFor (doc.shared_with ++ [_]) v).length ≤ 1
      rw [grantsFor_append, List.length_append]
      by_cases hv : v = u
      · subst hv
        have : grantsFor doc.shared_with v = [] :=
          grantsFor_eq_nil _ _ (updateFirstGrant_none_forall _ _ _ _ hupd)
        rw [this]
        simp [grantsFor, List.filter_cons, grantMatches_new]
      · have : grantsFor [({ user := none, user_id := some u, permission := p, shared_at := some t } : Grant)] v = [] := by
          apply grantsFor_eq_nil
          intro g hg
          simp only [List.mem_singleton] at hg
          subst hg
          simp [grantMatches, Ne.symm hv]
        rw [this]
        simpa using hone v
    · refine ⟨{ user := none, user_id := some u, permission := p, shared_at := some t }, ?_, rfl⟩
      show grantsFor (doc.shared_with ++ [_]) u = _
      rw [grantsFor_append,
        grantsFor_eq_nil _ _ (updateFirstGrant_none_forall _ _ _ _ hupd)]
      simp [grantsFor, List.filter_cons, grantMatches_new]

/-! ### Field-preservation lemmas -/

lemma preSave_counters (doc : Pdf) (m : Bool) (now : Nat) :
    (preSave doc m now).successful_chunks = doc.successful_chunks ∧
      (preSave doc m now).total_chunks = doc.total_chunks := by
  simp only [preSave]
  split_ifs <;> exact ⟨rfl, rfl⟩

lemma preSave_name (doc : Pdf) (m : Bool) (now : Nat) :
    (preSave doc m now).name = doc.name := by
  simp only [preSave]
  split_ifs <;> rfl

lemma shareWith_ok_fields {doc doc' : Pdf} {u p : String} {t : Nat}
    (h : shareWith doc u p t = Except.ok doc') :
    doc'.uploaded_by = doc.uploaded_by ∧ doc'.is_public = doc.is_public ∧
      doc'.successful_chunks = doc.successful_chunks ∧
      doc'.total_chunks = doc.total_chunks := by
  rcases shareWith_ok_shared h with ⟨l2, _, rfl⟩ | ⟨_, rfl⟩ <;> exact ⟨rfl, rfl, rfl, rfl⟩

lemma removeSharing_ok_fields {doc doc' : Pdf} {u : String}
    (h : removeSharing doc u = Except.ok doc') :
    doc'.uploaded_by = doc.uploaded_by ∧ doc'.is_public = doc.is_public ∧
      doc'.successful_chunks = doc.successful_chunks ∧
      doc'.total_chunks = doc.total_chunks := by
  rcases removeSharing_ok_shared h with ⟨l2, _, rfl⟩
  exact ⟨rfl, rfl, rfl, rfl⟩

/-! ### Membership lemmas for `validationErrors` -/

lemma mem_guardErr {x msg : String} {b : Bool} :
    x ∈ guardErr b msg ↔ b = true ∧ x = msg := by
  cases b <;> simp [guardErr]

lemma optNegative_eq_true {x : Option Int} :
    optNegative x = true ↔ ∃ p, x = some p ∧ p < 0 := by
  cases x <;> simp [optNegative]

lemma optTooLong_eq_true {x : Option String} {n : Nat} :
    optTooLong x n = true ↔ ∃ s, x = some s ∧ s.length > n := by
  cases x <;> simp [optTooLong]

lemma mem_tagErrs {x msg : String} {l : List String} {n : Nat} :
    x ∈ l.filterMap (fun t => if t.length > n then some msg else none) ↔
      (∃ t ∈ l, t.length > n) ∧ x = msg := by
  simp only [List.mem_filterMap]
  constructor
  · rintro ⟨t, ht, hsome⟩
    by_cases hlen : t.length > n
    · rw [if_pos hlen] at hsome
      injection hsome with hsome
      exact ⟨⟨t, ht, hlen⟩, hsome.symm⟩
    · rw [if_neg hlen] at hsome
      exact Option.noConfusion hsome
  · rintro ⟨⟨t, ht, hlen⟩, rfl⟩
    exact ⟨t, ht, by rw [if_pos hlen]⟩

lemma mem_permErrs {x : String} {l : List Grant} :
    x ∈ l.filterMap (fun g =>
        if g.permission == "read" || g.permission == "write" then none
        else some "Invalid shared_with permission enum value") ↔
      (∃ g ∈ l, ¬(g.permission = "read" ∨ g.permission = "write")) ∧
        x = "Invalid shared_with permission enum value" := by
  simp only [List.mem_filterMap]
  constructor
  · rintro ⟨g, hg, hsome⟩
    by_cases hc : (g.permission == "read" || g.permission == "write") = true
    · rw [if_pos hc] at hsome
      exact Option.noConfusion hsome
    · rw [if_neg hc] at hsome
      injection hsome with hsome
      refine ⟨⟨g, hg, ?_⟩, hsome.symm⟩
      simpa [Bool.or_eq_true, beq_iff_eq] using hc
  · rintro ⟨⟨g, hg, hne⟩, rfl⟩
    refine ⟨g, hg, ?_⟩
    rw [if_neg (by simpa [Bool.or_eq_true, beq_iff_eq] using hne)]

/-! ### Claim theorems -/

/-- C3: on any save in which `is_indexed` is modified to true, the pre-save
hook sets `indexed_at` to the current time and `indexing_status` to
`completed` as a single write, guarded by `indexed_at` being previously
unset; and a save never clears or changes an `indexed_at` that is already
set. -/
theorem C3_presave_sets_indexed_at_once :
    ∀ (doc : Pdf) (m : Bool) (now : Nat),
      (m = true → doc.is_indexed = true → doc.indexed_at = none →
        (preSave doc m now).indexed_at = some now ∧
          (preSave doc m now).indexing_status = "completed") ∧
      (∀ t, doc.indexed_at = some t → (preSave doc m now).indexed_at = some t) := by
  intro doc m now
  constructor
  · intro hm hi ha
    simp only [preSave]
    split_ifs with h1 h2 h3
    · exact ⟨rfl, rfl⟩
    · exact ⟨rfl, rfl⟩
    · exact absurd ⟨hm, hi, ha⟩ h1
    · exact absurd ⟨hm, hi, ha⟩ h1
  · intro t ht
    simp only [preSave]
    split_ifs with h1 h2 h3
    · exact absurd h1.2.2 (by rw [ht]; simp)
    · exact absurd h1.2.2 (by rw [ht]; simp)
    · exact ht
    · exact ht

/-- Witness for C3 at concrete inputs. -/
theorem C3_witness :
    (preSave { sampleDoc with is_indexed := true } true 42).indexed_at = some 42 ∧
      (preSave { sampleDoc with is_indexed := true } true 42).indexing_status = "completed" ∧
      (preSave { sampleDoc with indexed_at := some 7 } true 42).indexed_at = some 7 := by
  refine ⟨?_, ?_, ?_⟩
  · exact ((C3_presave_sets_indexed_at_once { sampleDoc with is_indexed := true } true 42).1
      rfl rfl rfl).1
  · exact ((C3_presave_sets_indexed_at_once { sampleDoc with is_indexed := true } true 42).1
      rfl rfl rfl).2
  · exact (C3_presave_sets_indexed_at_once { sampleDoc with indexed_at := some 7 } true 42).2 7 rfl

/-- C5: sharing with the owner always fails with the declared error, for
every permission value, and no modified document is ever produced. -/
theorem C5_share_with_owner_always_fails :
    ∀ (doc : Pdf) (userId permission : String) (now : Nat),
      userId = doc.uploaded_by →
      shareWith doc userId permission now = Except.error "Cannot share PDF with owner" ∧
        ∀ doc', shareWith doc userId permission now ≠ Except.ok doc' := by
  intro doc userId permission now h
  refine ⟨by rw [shareWith, if_pos h], ?_⟩
  intro doc' hok
  rw [shareWith, if_pos h] at hok
  exact Except.noConfusion hok

/-- Witness for C5 at a concrete input. -/
theorem C5_witness :
    shareWith sampleDoc "A" "write" 0 = Except.error "Cannot share PDF with owner" :=
  (C5_share_with_owner_always_fails sampleDoc "A" "write" 0 rfl).1

/-- C9: `hasAccess` returns true exactly when `getUserPermission` returns a
value different from `none`. -/
theorem C9_hasAccess_iff_permission_ne_none :
    ∀ (doc : Pdf) (userId : String),
      hasAccess doc userId = true ↔ getUserPermission doc userId ≠ "none" := by
  intro doc userId
  simp [hasAccess, bne_iff_ne]

/-- C10: when `original_name` is unset (empty) and `name` is set, the
pre-save hook copies `name` into `original_name`; consequently after any
save a document with a non-empty `name` has a non-empty `original_name`. -/
theorem C10_presave_backfills_original_name :
    ∀ (doc : Pdf) (m : Bool) (now : Nat),
      (doc.original_name = "" → doc.name ≠ "" →
        (preSave doc m now).original_name = doc.name) ∧
      (doc.name ≠ "" → (preSave doc m now).original_name ≠ "") := by
  intro doc m now
  simp only [preSave]
  split_ifs with h1 h2 h3
  · exact ⟨fun _ _ => rfl, fun hn => hn⟩
  · exact ⟨fun h0 hn => absurd ⟨h0, hn⟩ h2, fun hn heq => h2 ⟨heq, hn⟩⟩
  · exact ⟨fun _ _ => rfl, fun hn => hn⟩
  · exact ⟨fun h0 hn => absurd ⟨h0, hn⟩ h3, fun hn heq => h3 ⟨heq, hn⟩⟩

/-- Witness for C10 at a concrete input. -/
theorem C10_witness :
    (preSave { sampleDoc with original_name := "" } false 0).original_name = "report.pdf" ∧
      (preSave { sampleDoc with original_name := "" } false 0).original_name ≠ "" := by
  refine ⟨?_, ?_⟩
  · exact (C10_presave_backfills_original_name { sampleDoc with original_name := "" } false 0).1
      rfl (by decide)
  · exact (C10_presave_backfills_original_name { sampleDoc with original_name := "" } false 0).2
      (by decide)

/-- C8: validation produces the declared bound-violation message exactly
when the bound is violated: name longer than 255, description longer than
500, some tag longer than 50, or negative size. -/
theorem C8_validation_bounds :
    ∀ doc : Pdf,
      (("PDF name cannot exceed 255 characters" ∈ validationErrors doc) ↔
        doc.name.length > 255) ∧
      (("Description cannot exceed 500 characters" ∈ validationErrors doc) ↔
        ∃ d, doc.description = some d ∧ d.length > 500) ∧
      (("Tag cannot exceed 50 characters" ∈ validationErrors doc) ↔
        ∃ t ∈ doc.tags, t.length > 50) ∧
      (("File size cannot be negative" ∈ validationErrors doc) ↔ doc.size < 0) := by
  intro doc
  refine ⟨?_, ?_, ?_, ?_⟩ <;>
    simp [validationErrors, List.mem_append, mem_guardErr, mem_tagErrs, mem_permErrs,
      optTooLong_eq_true, optNegative_eq_true, decide_eq_true_iff, beq_iff_eq]

/-- A document violating `successful_chunks ≤ total_chunks` that the schema
nevertheless accepts. -/
def chunkOverflowDoc : Pdf :=
  { sampleDoc with total_chunks := 3, successful_chunks := 5 }

/-- C4 counterexample: a save carrying `successful_chunks = 5`,
`total_chunks = 3` passes schema validation with no error, so the invariant
`successful_chunks ≤ total_chunks` is NOT maintained by every operation on
the document. -/
theorem C4_counterexample :
    validationErrors chunkOverflowDoc = [] ∧
      ¬(chunkOverflowDoc.successful_chunks ≤ chunkOverflowDoc.total_chunks) :=
  ⟨by rfl, by decide⟩

/-- C4 amended: the schema only enforces the two lower bounds
(`0 ≤ successful_chunks`, `0 ≤ total_chunks`) at save time — the upper
bound `successful_chunks ≤ total_chunks` is not checked — while the
registry operations themselves (pre-save hook, shareWith, removeSharing)
never modify either counter, hence preserve the invariant whenever it
holds. -/
theorem C4_chunk_bounds_amended :
    ∀ doc : Pdf,
      (("Successful chunks cannot be negative" ∈ validationErrors doc) ↔
        doc.successful_chunks < 0) ∧
      (("Total chunks cannot be negative" ∈ validationErrors doc) ↔
        doc.total_chunks < 0) ∧
      (∀ (m : Bool) (now : Nat),
        (preSave doc m now).successful_chunks = doc.successful_chunks ∧
          (preSave doc m now).total_chunks = doc.total_chunks) ∧
      (∀ (u p : String) (t : Nat) (doc' : Pdf), shareWith doc u p t = Except.ok doc' →
        doc'.successful_chunks = doc.successful_chunks ∧
          doc'.total_chunks = doc.total_chunks) ∧
      (∀ (u : String) (doc' : Pdf), removeSharing doc u = Except.ok doc' →
        doc'.successful_chunks = doc.successful_chunks ∧
          doc'.total_chunks = doc.total_chunks) := by
  intro doc
  refine ⟨?_, ?_, fun m now => preSave_counters doc m now, ?_, ?_⟩
  · simp [validationErrors, List.mem_append, mem_guardErr, mem_tagErrs, mem_permErrs,
      optTooLong_eq_true, optNegative_eq_true, decide_eq_true_iff, beq_iff_eq]
  · simp [validationErrors, List.mem_append, mem_guardErr, mem_tagErrs, mem_permErrs,
      optTooLong_eq_true, optNegative_eq_true, decide_eq_true_iff, beq_iff_eq]
  · intro u p t doc' hok
    exact ⟨(shareWith_ok_fields hok).2.2.1, (shareWith_ok_fields hok).2.2.2⟩
  · intro u doc' hok
    exact ⟨(removeSharing_ok_fields hok).2.2.1, (removeSharing_ok_fields hok).2.2.2⟩

/-- A concrete post-share document: `sampleDoc` after `shareWith "B" "write" 1`. -/
def sharedOnceDoc : Pdf :=
  { sampleDoc with shared_with :=
      [{ user := none, user_id := some "B", permission := "write", shared_at := some 1 }] }

/-- Witness for C4 (amended) at a concrete input. -/
theorem C4_witness :
    sharedOnceDoc.successful_chunks = sampleDoc.successful_chunks ∧
      sharedOnceDoc.total_chunks = sampleDoc.total_chunks :=
  (C4_chunk_bounds_amended sampleDoc).2.2.2.1 "B" "write" 1 sharedOnceDoc (by rfl)

/-- C1: `getUserPermission` resolves in order with first match winning —
owner, then public (read), then the first active grant (its permission),
otherwise none; and a grant added by `shareWith` for a non-owner on a
non-public document resolves to exactly the shared permission. -/
theorem C1_resolution_order :
    (∀ (doc : Pdf) (userId : String),
      (userId = doc.uploaded_by → getUserPermission doc userId = "owner") ∧
      (userId ≠ doc.uploaded_by → doc.is_public = true →
        getUserPermission doc userId = "read") ∧
      (∀ g, userId ≠ doc.uploaded_by → doc.is_public = false →
        doc.shared_with.find? (grantMatches userId) = some g → g.permission ≠ "" →
        getUserPermission doc userId = g.permission) ∧
      (userId ≠ doc.uploaded_by → doc.is_public = false →
        (∀ g ∈ doc.shared_with, grantMatches userId g = false) →
        getUserPermission doc userId = "none")) ∧
    (∀ (doc : Pdf) (userId permission : String) (now : Nat),
      userId ≠ doc.uploaded_by → doc.is_public = false → permission ≠ "" →
      (shareWith doc userId permission now).map (fun d => getUserPermission d userId) =
        Except.ok permission) := by
  constructor
  · intro doc userId
    refine ⟨?_, ?_, ?_, ?_⟩
    · intro h
      rw [getUserPermission, if_pos h]
    · intro hown hpub
      rw [getUserPermission, if_neg hown, if_pos (by simp [hpub])]
    · intro g hown hpub hfind hperm
      rw [getUserPermission_of_find? hown hpub hfind, if_neg hperm]
    · intro hown hpub hnone
      rw [getUserPermission, if_neg hown, if_neg (by simp [hpub])]
      by_cases hlen : doc.shared_with.length > 0
      · rw [if_pos hlen, List.find?_eq_none.mpr (fun g hg => by simp [hnone g hg])]
      · rw [if_neg hlen]
  · intro doc u p t hown hpub hp
    obtain ⟨doc', hok⟩ := shareWith_ok_of_ne_owner doc u p t hown
    rw [hok]
    have hperm : getUserPermission doc' u = p := by
      rcases shareWith_ok_shared hok with ⟨l2, hupd, rfl⟩ | ⟨hupd, rfl⟩
      · obtain ⟨l1, g, lr, heq, hl1, hg, hl2⟩ := updateFirstGrant_some _ _ _ _ _ hupd
        have hfind : l2.find? (grantMatches u) =
            some { g with permission := p, shared_at := some t } := by
          rw [hl2, find?_append_left_none _ _ _ hl1,
            List.find?_cons_of_pos _ (by simp [grantMatches_set_perm, hg])]
        have := @getUserPermission_of_find? { doc with shared_with := l2 } u _ hown hpub hfind
        rw [this]
        simp [hp]
      · have hfind : (doc.shared_with ++
            [({ user := none, user_id := some u, permission := p,
                shared_at := some t } : Grant)]).find? (grantMatches u) =
            some { user := none, user_id := some u, permission := p, shared_at := some t } := by
          rw [find?_append_left_none _ _ _ (updateFirstGrant_none_forall _ _ _ _ hupd),
            List.find?_cons_of_pos _ (by simp [grantMatches_new])]
        have := @getUserPermission_of_find?
          { doc with shared_with := doc.shared_with ++
            [{ user := none, user_id := some u, permission := p, shared_at := some t }] }
          u _ hown hpub hfind
        rw [this]
        simp [hp]
    rw [Except.map, hperm]

/-- Witness for C1 at concrete inputs. -/
theorem C1_witness :
    getUserPermission sampleDoc "A" = "owner" ∧
      getUserPermission { sampleDoc with is_public := true } "B" = "read" ∧
      (shareWith sampleDoc "B" "write" 5).map (fun d => getUserPermission d "B") =
        Except.ok "write" := by
  refine ⟨?_, ?_, ?_⟩
  · exact (C1_resolution_order.1 sampleDoc "A").1 rfl
  · exact (C1_resolution_order.1 { sampleDoc with is_public := true } "B").2.1 (by decide) rfl
  · exact C1_resolution_order.2 sampleDoc "B" "write" 5 (by decide) rfl (by decide)

/-- C2: `shareWith` preserves the at-most-one-grant-per-user invariant, and
sharing write then read to the same user leaves exactly one grant for that
user, carrying permission read. -/
theorem C2_reshare_updates_in_place :
    (∀ (doc doc' : Pdf) (userId permission : String) (now : Nat),
      atMostOneGrantPer doc.shared_with →
      shareWith doc userId permission now = Except.ok doc' →
      atMostOneGrantPer doc'.shared_with) ∧
    (∀ (doc : Pdf) (userId : String) (now1 now2 : Nat),
      atMostOneGrantPer doc.shared_with →
      userId ≠ doc.uploaded_by →
      ∃ (doc2 : Pdf) (g : Grant),
        (shareWith doc userId "write" now1).bind (fun d => shareWith d userId "read" now2) =
          Except.ok doc2 ∧
        grantsFor doc2.shared_with userId = [g] ∧ g.permission = "read") := by
  constructor
  · intro doc doc' u p t hone hok
    exact (shareWith_ok_grants hone hok).1
  · intro doc u t1 t2 hone hown
    obtain ⟨d1, hok1⟩ := shareWith_ok_of_ne_owner doc u "write" t1 hown
    have h1 := shareWith_ok_grants hone hok1
    have hown1 : u ≠ d1.uploaded_by := by
      rw [(shareWith_ok_fields hok1).1]
      exact hown
    obtain ⟨d2, hok2⟩ := shareWith_ok_of_ne_owner d1 u "read" t2 hown1
    have h2 := shareWith_ok_grants h1.1 hok2
    obtain ⟨g, hg, hgperm⟩ := h2.2
    refine ⟨d2, g, ?_, hg, hgperm⟩
    rw [hok1]
    exact hok2

/-- Witness for C2 at a concrete input. -/
theorem C2_witness : atMostOneGrantPer sharedOnceDoc.shared_with :=
  C2_reshare_updates_in_place.1 sampleDoc sharedOnceDoc "B" "write" 1
    (fun u => by simp [sampleDoc, grantsFor]) (by rfl)

/-- C6: `removeSharing` fails with the declared errors on an empty grant
list and on a missing grant (producing no modified document), and when a
grant exists it removes exactly the first matching grant, shrinking the
list by one. -/
theorem C6_unshare_errors_and_removal :
    ∀ (doc : Pdf) (userId : String),
      (doc.shared_with = [] →
        removeSharing doc userId = Except.error "PDF is not shared with any users") ∧
      ((∀ g ∈ doc.shared_with, grantMatches userId g = false) → doc.shared_with ≠ [] →
        removeSharing doc userId = Except.error "PDF is not shared with this user") ∧
      (∀ e, removeSharing doc userId = Except.error e →
        ∀ doc', removeSharing doc userId ≠ Except.ok doc') ∧
      (∀ g, g ∈ doc.shared_with → grantMatches userId g = true →
        ∃ doc' l1 g0 lr, removeSharing doc userId = Except.ok doc' ∧
          doc.shared_with = l1 ++ g0 :: lr ∧
          (∀ g' ∈ l1, grantMatches userId g' = false) ∧ grantMatches userId g0 = true ∧
          doc'.shared_with = l1 ++ lr ∧
          doc'.shared_with.length + 1 = doc.shared_with.length) := by
  intro doc u
  refine ⟨?_, ?_, ?_, ?_⟩
  · intro h
    rw [removeSharing, if_pos (by rw [h]; rfl)]
  · intro hnone hne
    rw [removeSharing, if_neg (by simpa [List.length_eq_zero] using hne),
      removeFirstGrant_eq_none _ _ hnone]
  · intro e herr doc' hok
    rw [herr] at hok
    exact Except.noConfusion hok
  · intro g hg hmatch
    have hne : doc.shared_with ≠ [] := List.ne_nil_of_mem hg
    cases hrem : removeFirstGrant doc.shared_with u with
    | none =>
      exact absurd hmatch (by simp [removeFirstGrant_none_forall _ _ hrem g hg])
    | some l2 =>
      obtain ⟨l1, g0, lr, heq, hl1, hg0, hl2⟩ := removeFirstGrant_some _ _ _ hrem
      refine ⟨{ doc with shared_with := l2 }, l1, g0, lr, ?_, heq, hl1, hg0, hl2, ?_⟩
      · rw [removeSharing, if_neg (by simpa [List.length_eq_zero] using hne), hrem]
      · show l2.length + 1 = doc.shared_with.length
        rw [hl2, heq]
        simp [List.length_append]
        omega

/-- Witness for C6 at concrete inputs. -/
theorem C6_witness :
    removeSharing sampleDoc "B" = Except.error "PDF is not shared with any users" ∧
      removeSharing sharedOnceDoc "C" = Except.error "PDF is not shared with this user" := by
  refine ⟨?_, ?_⟩
  · exact (C6_unshare_errors_and_removal sampleDoc "B").1 rfl
  · exact (C6_unshare_errors_and_removal sharedOnceDoc "C").2.1 (by decide) (by decide)

/-- The document obtained by sharing `sampleDoc` with user `"B"` (read). -/
def grantedBDoc : Pdf :=
  { sampleDoc with shared_with :=
      [{ user := none, user_id := some "B", permission := "read", shared_at := some 0 }] }

/-- C7 (code bug): `shareWith` records the grantee under the field
`user_id`, but `findByUser` queries the schema field `shared_with.user`, so
a document shared with user `"B"` grants `"B"` access (per
`getUserPermission` and `hasAccess`) yet does NOT appear in the listing
`findByUser` computes for `"B"`. -/
theorem C7_shared_doc_missing_from_listing :
    shareWith sampleDoc "B" "read" 0 = Except.ok grantedBDoc ∧
      hasAccess grantedBDoc "B" = true ∧
      getUserPermission grantedBDoc "B" = "read" ∧
      findByUserMatch grantedBDoc "B" = false ∧
      findByUser [grantedBDoc] "B" = [] :=
  ⟨by rfl, by rfl, by rfl, by rfl, by rfl⟩

end RagApp
